import Mathlib

/-!
Verification of the IP-whitelist reconciliation program.

The program keeps a firewall allowlist synchronized with a shared remote
document (a GitHub gist holding a JSON object mapping identifier strings to
address strings).  The server role (`serverMode` in `ip.js`) fetches the
document, diffs it against a locally persisted checkpoint file, applies the
derived UFW add/remove operations, and overwrites the checkpoint with the
fetched document.  The connector role (`updateIP` in `tui.js`,
`connectorMode` in `ip.js`) publishes the machine's observed public address
under its identifier via a whole-document read-modify-write.

Documents are modelled as association lists in insertion order, matching
JavaScript object key order, with unique keys expressed as a `Nodup`
hypothesis where a proof needs it.
-/

namespace IpWhitelist

/-- A desired-state document or checkpoint: identifier→address pairs in JS
object insertion order (`Object.entries` order). -/
abbrev Doc := List (String × String)

/-- Property lookup on a document, as `obj[key]` on a JS object
(keys are unique in a JS object; the first binding wins here). -/
def lookup : Doc → String → Option String
  | [], _ => none
  | (k, v) :: rest, d => if k = d then some v else lookup rest d

/-- Key-presence test `obj.hasOwnProperty(key)`. -/
def hasKey (doc : Doc) (d : String) : Bool :=
  (lookup doc d).isSome

/-- The keys of the document are pairwise distinct (true of every JS object). -/
def keysNodup (doc : Doc) : Prop :=
  (doc.map Prod.fst).Nodup

instance (doc : Doc) : Decidable (keysNodup doc) := by
  unfold keysNodup; infer_instance

/-- One firewall operation issued through the UFW manager. -/
inductive Op
  | add (id addr : String)
  | remove (id addr : String)
deriving DecidableEq

/-- The identifier an operation was derived for. -/
def opId : Op → String
  | .add d _ => d
  | .remove d _ => d

/-- The body of the first loop of `serverMode` (ip.js 533-545) for one fetched
entry `(d, ip)`: a new identifier yields one add, a changed address yields
remove-old then add-new, an unchanged address yields nothing. -/
def entryOps (oldData : Doc) (d ip : String) : List Op :=
  match lookup oldData d with
  | none => [Op.add d ip]
  | some oldIp => if oldIp ≠ ip then [Op.remove d oldIp, Op.add d ip] else []

/-- The per-identifier failure domains of one server pass, in execution order:
the first loop of `serverMode` walks the fetched document (each entry wrapped
in its own try/catch), the second loop (ip.js 553-563) removes entries whose
identifier disappeared from the fetched document. -/
def passGroups (oldData newData : Doc) : List (String × List Op) :=
  newData.map (fun e => (e.1, entryOps oldData e.1 e.2)) ++
    oldData.filterMap (fun e =>
      if hasKey newData e.1 then none else some (e.1, [Op.remove e.1 e.2]))

/-- The reconciliation plan: the UFW operations of a pass in order. -/
def plan (oldData newData : Doc) : List Op :=
  ((passGroups oldData newData).map Prod.snd).flatten

/-- Run one failure domain (one try/catch body) against a failure oracle:
operations run in order, a failing operation is still invoked (the UFW call
is made and throws) but aborts the rest of its group, and the group reports
whether a failure occurred. -/
def runGroup (fails : Op → Bool) : List Op → List Op × Bool
  | [] => ([], false)
  | op :: rest =>
    if fails op then ([op], true)
    else
      let r := runGroup fails rest
      (op :: r.1, r.2)

/-- Execute every failure domain of a pass: the UFW calls actually issued, and
the identifiers whose group failed (the domains logged by the catch blocks). -/
def applyOps (fails : Op → Bool) (oldData newData : Doc) : List Op × List String :=
  (((passGroups oldData newData).map (fun g => (runGroup fails g.2).1)).flatten,
    (passGroups oldData newData).filterMap (fun g =>
      if (runGroup fails g.2).2 then some g.1 else none))

/-- What the remote store hands back for one fetch. -/
inductive StoreResponse
  | unreachable
  | malformed
  | ok (d : Doc)

/-- Fetch via `GistManager.getGistContent` (ip.js 204-218): an unreachable store throws
("Failed to fetch gist content"), unparseable JSON is caught and yields the
empty document, valid JSON yields the parsed document. -/
def getGistContent : StoreResponse → Except Unit Doc
  | .unreachable => .error ()
  | .malformed => .ok []
  | .ok d => .ok d

/-- The on-disk checkpoint file (`ufw-state.json`): absent, or present with
its parse result (`none` when the contents do not parse). -/
inductive CheckpointFile
  | absent
  | present (parsed : Option Doc)
deriving DecidableEq

/-- Loading the local state (ip.js 520-528): `oldData` starts `{}` and is only
replaced when the file exists and parses; a parse error is caught with a
warning and leaves `oldData` empty. -/
def loadLocalState : CheckpointFile → Doc
  | .absent => []
  | .present none => []
  | .present (some d) => d

/-- Observable outcome of one server pass. -/
structure PassResult where
  checkpointFile : CheckpointFile
  ufwCalls : List Op
  failures : List String
  fetchError : Bool
deriving DecidableEq

/-- One pass of `serverMode` (ip.js 518-566): fetch the document (a throw is
caught at ip.js 572 before any UFW call or state write), otherwise load the
local checkpoint, run both loops, and unconditionally overwrite the
checkpoint file with the fetched document (ip.js 566). -/
def serverPass (resp : StoreResponse) (ck : CheckpointFile) (fails : Op → Bool) :
    PassResult :=
  match getGistContent resp with
  | .error _ => ⟨ck, [], [], true⟩
  | .ok newData =>
    let r := applyOps fails (loadLocalState ck) newData
    ⟨.present (some newData), r.1, r.2, false⟩

/-- JS property assignment `obj[k] = v`: replace in place when the key exists,
append at the end when it does not. -/
def setKey : Doc → String → String → Doc
  | [], k, v => [(k, v)]
  | (k', v') :: rest, k, v =>
    if k' = k then (k, v) :: rest else (k', v') :: setKey rest k v

/-- The connector publish path `updateIP` (tui.js 609-667): when the observed
address equals the last-published one the function returns before touching
the store (`none` = no write, published `false`); otherwise it reads the
stored document, sets its own identifier to the observed address, and writes
the whole document back. -/
def updateIP (observed lastIP domain : String) (stored : Doc) :
    Option Doc × Bool :=
  if observed = lastIP then (none, false)
  else (some (setKey stored domain observed), true)

/-- A firewall rule: action, source address, destination port. -/
inductive FwAction
  | allow
  | deny
deriving DecidableEq

/-- The firewall's rule set. -/
abbrev FwState := List (FwAction × String × Nat)

/-- Effect of `sudo ufw allow from <ip> to any port <port>` (ip.js 259, tui.js 419):
inserts the allow rule when absent (UFW skips an existing rule). -/
def addUFWRule (fw : FwState) (ip : String) (port : Nat) : FwState :=
  if (FwAction.allow, ip, port) ∈ fw then fw else fw ++ [(FwAction.allow, ip, port)]

/-- Effect of `UFWManager.removeRule` (ip.js 266-273):
`sudo ufw delete allow from <ip> to any port <port>` deletes the allow rule. -/
def removeRule (fw : FwState) (ip : String) (port : Nat) : FwState :=
  fw.filter (fun r => decide (r ≠ (FwAction.allow, ip, port)))

/-- Effect of `removeUFWRule` (tui.js 426-433):
`sudo ufw delete deny from <ip> to any port <port>` deletes a deny rule. -/
def removeUFWRule (fw : FwState) (ip : String) (port : Nat) : FwState :=
  fw.filter (fun r => decide (r ≠ (FwAction.deny, ip, port)))

/-! ### Basic facts about document lookup -/

theorem lookup_eq_some_of_mem {doc : Doc} {k v : String}
    (hnd : keysNodup doc) (hm : (k, v) ∈ doc) : lookup doc k = some v := by
  induction doc with
  | nil => cases hm
  | cons e rest ih =>
    obtain ⟨k', v'⟩ := e
    rw [keysNodup, List.map_cons, List.nodup_cons] at hnd
    rcases List.mem_cons.mp hm with h | h
    · cases h
      simp [lookup]
    · have hk : k' ≠ k := by
        rintro rfl
        exact hnd.1 (List.mem_map.mpr ⟨(k', v), h, rfl⟩)
      simp only [lookup, if_neg hk]
      exact ih hnd.2 h

theorem mem_of_lookup_eq_some {doc : Doc} {k v : String}
    (h : lookup doc k = some v) : (k, v) ∈ doc := by
  induction doc with
  | nil => simp [lookup] at h
  | cons e rest ih =>
    obtain ⟨k', v'⟩ := e
    by_cases hk : k' = k
    · subst hk
      simp only [lookup] at h
      rw [if_pos trivial] at h
      cases Option.some.inj h
      exact List.mem_cons_self _ _
    · simp only [lookup, if_neg hk] at h
      exact List.mem_cons_of_mem _ (ih h)

theorem lookup_isSome_of_mem {doc : Doc} {k v : String}
    (hm : (k, v) ∈ doc) : (lookup doc k).isSome = true := by
  induction doc with
  | nil => cases hm
  | cons e rest ih =>
    obtain ⟨k', v'⟩ := e
    by_cases hk : k' = k
    · simp [lookup, hk]
    · rcases List.mem_cons.mp hm with h | h
      · cases h
        exact absurd rfl hk
      · simp only [lookup, if_neg hk]
        exact ih h

/-! ### Facts about the per-entry operations -/

theorem entryOps_nil (d ip : String) : entryOps [] d ip = [Op.add d ip] := rfl

theorem entryOps_none {oldData : Doc} {d ip : String} (h : lookup oldData d = none) :
    entryOps oldData d ip = [Op.add d ip] := by
  unfold entryOps
  rw [h]

theorem entryOps_some {oldData : Doc} {d ip o : String} (h : lookup oldData d = some o) :
    entryOps oldData d ip = if o ≠ ip then [Op.remove d o, Op.add d ip] else [] := by
  unfold entryOps
  rw [h]

theorem add_mem_entryOps_iff {oldData : Doc} {d ip i a : String} :
    Op.add i a ∈ entryOps oldData d ip ↔
      i = d ∧ a = ip ∧ lookup oldData d ≠ some ip := by
  cases h : lookup oldData d with
  | none =>
    rw [entryOps_none h]
    simp
  | some o =>
    rw [entryOps_some h]
    by_cases ho : o = ip
    · subst ho
      rw [if_neg fun hc => hc rfl]
      simp
    · rw [if_pos ho]
      constructor
      · intro hmem
        rcases List.mem_cons.mp hmem with heq | hmem2
        · cases heq
        · simp only [List.mem_singleton] at hmem2
          cases hmem2
          exact ⟨rfl, rfl, fun hc => ho (Option.some.inj hc)⟩
      · rintro ⟨rfl, rfl, -⟩
        exact List.mem_cons_of_mem _ (List.mem_singleton.mpr rfl)

theorem remove_mem_entryOps_iff {oldData : Doc} {d ip i a : String} :
    Op.remove i a ∈ entryOps oldData d ip ↔
      i = d ∧ lookup oldData d = some a ∧ a ≠ ip := by
  cases h : lookup oldData d with
  | none =>
    rw [entryOps_none h]
    simp
  | some o =>
    rw [entryOps_some h]
    by_cases ho : o = ip
    · subst ho
      rw [if_neg fun hc => hc rfl]
      constructor
      · intro hmem
        cases hmem
      · rintro ⟨-, h1, h2⟩
        exact absurd (Option.some.inj h1).symm h2
    · rw [if_pos ho]
      constructor
      · intro hmem
        rcases List.mem_cons.mp hmem with heq | hmem2
        · cases heq
          exact ⟨rfl, rfl, ho⟩
        · simp only [List.mem_singleton] at hmem2
          cases hmem2
      · rintro ⟨rfl, h1, -⟩
        cases Option.some.inj h1
        exact List.mem_cons_self _ _

theorem entryOps_id {oldData : Doc} {d ip : String} :
    ∀ op ∈ entryOps oldData d ip, opId op = d := by
  intro op hop
  cases h : lookup oldData d with
  | none =>
    rw [entryOps_none h] at hop
    simp only [List.mem_singleton] at hop
    subst hop
    rfl
  | some o =>
    rw [entryOps_some h] at hop
    by_cases ho : o ≠ ip
    · rw [if_pos ho] at hop
      simp only [List.mem_cons, List.not_mem_nil, or_false] at hop
      rcases hop with rfl | rfl <;> rfl
    · rw [if_neg ho] at hop
      cases hop

/-! ### Facts about the plan and its failure domains -/

theorem plan_eq (oldData newData : Doc) :
    plan oldData newData =
      (newData.map (fun e => entryOps oldData e.1 e.2)).flatten ++
        ((oldData.filterMap (fun e =>
          if hasKey newData e.1 then none
          else some (e.1, [Op.remove e.1 e.2]))).map Prod.snd).flatten := by
  unfold plan passGroups
  rw [List.map_append, List.flatten_append, List.map_map]
  rfl

theorem mem_plan_iff {oldData newData : Doc} {op : Op} :
    op ∈ plan oldData newData ↔
      ((∃ e ∈ newData, op ∈ entryOps oldData e.1 e.2) ∨
        (∃ e ∈ oldData, hasKey newData e.1 = false ∧ op = Op.remove e.1 e.2)) := by
  rw [plan_eq, List.mem_append, List.mem_flatten, List.mem_flatten]
  constructor
  · rintro (⟨l, hl, hop⟩ | ⟨l, hl, hop⟩)
    · left
      rw [List.mem_map] at hl
      obtain ⟨e, he, rfl⟩ := hl
      exact ⟨e, he, hop⟩
    · right
      rw [List.mem_map] at hl
      obtain ⟨g, hg, rfl⟩ := hl
      rw [List.mem_filterMap] at hg
      obtain ⟨e, he, hfe⟩ := hg
      by_cases hk : hasKey newData e.1
      · rw [if_pos hk] at hfe
        cases hfe
      · rw [if_neg hk] at hfe
        cases hfe
        simp only [List.mem_singleton] at hop
        exact ⟨e, he, by simpa using hk, hop⟩
  · rintro (⟨e, he, hop⟩ | ⟨e, he, hk, rfl⟩)
    · left
      exact ⟨entryOps oldData e.1 e.2, List.mem_map.mpr ⟨e, he, rfl⟩, hop⟩
    · right
      refine ⟨[Op.remove e.1 e.2], ?_, List.mem_singleton.mpr rfl⟩
      rw [List.mem_map]
      refine ⟨(e.1, [Op.remove e.1 e.2]), ?_, rfl⟩
      rw [List.mem_filterMap]
      exact ⟨e, he, by rw [if_neg (by simp [hk])]⟩

theorem plan_split_of_mem {oldData newData : Doc} {k v : String}
    (h : (k, v) ∈ newData) :
    ∃ l₁ l₂, plan oldData newData = l₁ ++ (entryOps oldData k v ++ l₂) := by
  obtain ⟨s, t, ht⟩ := List.append_of_mem h
  subst ht
  refine ⟨(s.map (fun e => entryOps oldData e.1 e.2)).flatten,
    (t.map (fun e => entryOps oldData e.1 e.2)).flatten ++
      ((oldData.filterMap (fun e' =>
        if hasKey (s ++ (k, v) :: t) e'.1 then none
        else some (e'.1, [Op.remove e'.1 e'.2]))).map Prod.snd).flatten, ?_⟩
  rw [plan_eq, List.map_append, List.map_cons, List.flatten_append, List.flatten_cons]
  simp [List.append_assoc]

theorem flatten_split_of_mem {α β : Type} (f : α → List β) {x : α} {l : List α}
    (h : x ∈ l) : ∃ l₁ l₂, (l.map f).flatten = l₁ ++ (f x ++ l₂) := by
  obtain ⟨s, t, rfl⟩ := List.append_of_mem h
  exact ⟨(s.map f).flatten, (t.map f).flatten, by
    rw [List.map_append, List.map_cons, List.flatten_append, List.flatten_cons]⟩

theorem group_ops_id {oldData newData : Doc} {d : String} {ops : List Op}
    (h : (d, ops) ∈ passGroups oldData newData) : ∀ op ∈ ops, opId op = d := by
  unfold passGroups at h
  rw [List.mem_append] at h
  rcases h with h | h
  · rw [List.mem_map] at h
    obtain ⟨e, he, heq⟩ := h
    have h1 : e.1 = d := congrArg Prod.fst heq
    have h2 : entryOps oldData e.1 e.2 = ops := congrArg Prod.snd heq
    subst h1
    subst h2
    exact entryOps_id
  · rw [List.mem_filterMap] at h
    obtain ⟨e, he, hfe⟩ := h
    by_cases hk : hasKey newData e.1
    · rw [if_pos hk] at hfe
      cases hfe
    · rw [if_neg hk] at hfe
      have h1 : e.1 = d := congrArg Prod.fst (Option.some.inj hfe)
      have h2 : [Op.remove e.1 e.2] = ops := congrArg Prod.snd (Option.some.inj hfe)
      subst h1
      subst h2
      intro op hop
      simp only [List.mem_singleton] at hop
      subst hop
      rfl

/-! ### Facts about running failure domains -/

theorem runGroup_false (ops : List Op) : runGroup (fun _ => false) ops = (ops, false) := by
  induction ops with
  | nil => rfl
  | cons op rest ih => simp [runGroup, ih]

theorem runGroup_congr {fails fails' : Op → Bool} {ops : List Op}
    (h : ∀ op ∈ ops, fails op = fails' op) :
    runGroup fails ops = runGroup fails' ops := by
  induction ops with
  | nil => rfl
  | cons op rest ih =>
    have hop := h op (List.mem_cons_self _ _)
    unfold runGroup
    rw [hop]
    by_cases hc : fails' op = true
    · simp [hc]
    · simp only [Bool.not_eq_true] at hc
      simp [hc, ih fun o ho => h o (List.mem_cons_of_mem _ ho)]

theorem flatten_nil_of_all_nil {α : Type} {L : List (List α)}
    (h : ∀ l ∈ L, l = []) : L.flatten = [] := by
  induction L with
  | nil => rfl
  | cons x rest ih =>
    rw [List.flatten_cons, h x (List.mem_cons_self _ _),
      ih fun l hl => h l (List.mem_cons_of_mem _ hl)]
    rfl

theorem filterMap_none_of_all {α β : Type} {f : α → Option β} {l : List α}
    (h : ∀ x ∈ l, f x = none) : l.filterMap f = [] := by
  induction l with
  | nil => rfl
  | cons x rest ih =>
    rw [List.filterMap_cons_none (h x (List.mem_cons_self _ _))]
    exact ih fun y hy => h y (List.mem_cons_of_mem _ hy)

theorem flatten_map_singleton {α β : Type} (g : α → β) (l : List α) :
    (l.map (fun x => [g x])).flatten = l.map g := by
  induction l with
  | nil => rfl
  | cons x rest ih => simp [ih]

theorem applyOps_no_failure (oldData newData : Doc) :
    applyOps (fun _ => false) oldData newData = (plan oldData newData, []) := by
  unfold applyOps plan
  refine Prod.ext ?_ ?_
  · simp [runGroup_false]
  · simp [runGroup_false]

/-! ### Facts about `setKey` (JS property assignment) -/

theorem lookup_setKey_self (doc : Doc) (k v : String) :
    lookup (setKey doc k v) k = some v := by
  induction doc with
  | nil => simp [setKey, lookup]
  | cons e rest ih =>
    obtain ⟨k', v'⟩ := e
    by_cases hk : k' = k
    · simp [setKey, hk, lookup]
    · simp only [setKey, if_neg hk, lookup]
      exact ih

theorem lookup_setKey_other (doc : Doc) {k k' : String} (v : String)
    (h : k' ≠ k) : lookup (setKey doc k v) k' = lookup doc k' := by
  induction doc with
  | nil =>
    simp only [setKey, lookup]
    rw [if_neg (fun hkk => h hkk.symm)]
  | cons e rest ih =>
    obtain ⟨k₀, v₀⟩ := e
    by_cases hk : k₀ = k
    · subst hk
      simp only [setKey, if_pos rfl, lookup]
      rw [if_neg (fun hkk => h hkk.symm), if_neg (fun hkk => h hkk.symm)]
    · simp only [setKey, if_neg hk, lookup]
      by_cases hk' : k₀ = k'
      · rw [if_pos hk', if_pos hk']
      · rw [if_neg hk', if_neg hk']
        exact ih

theorem plan_empty_checkpoint (newData : Doc) :
    plan [] newData = newData.map fun e => Op.add e.1 e.2 := by
  unfold plan passGroups
  rw [List.filterMap_nil, List.append_nil, List.map_map]
  have hcomp : (Prod.snd ∘ fun e : String × String => (e.1, entryOps [] e.1 e.2))
      = fun e : String × String => [Op.add e.1 e.2] := by
    funext e
    rfl
  rw [hcomp]
  exact flatten_map_singleton _ newData

/-! ### Claim theorems -/

/-- Claim C1, counterexample: with checkpoint `a ↦ 1.1.1.1` persisted and a
store response whose body is malformed, the server pass does not abort with a
FetchError: `getGistContent` swallows the parse error and returns the empty
document, so the firewall receives a remove call and the checkpoint file is
rewritten, contradicting the claim that malformed data is a full no-op. -/
theorem fetch_malformed_not_aborting :
    (serverPass .malformed (.present (some [("a", "1.1.1.1")])) fun _ => false).ufwCalls
        = [Op.remove "a" "1.1.1.1"]
  ∧ (serverPass .malformed (.present (some [("a", "1.1.1.1")])) fun _ => false).checkpointFile
        ≠ .present (some [("a", "1.1.1.1")])
  ∧ (serverPass .malformed (.present (some [("a", "1.1.1.1")])) fun _ => false).fetchError
        = false := by
  refine ⟨rfl, by decide, rfl⟩

/-- Claim C1, amended: only an unreachable store aborts the pass with a
FetchError, the checkpoint file unchanged and zero firewall calls; a store
response with malformed data instead proceeds exactly as if the store had
returned the empty document. -/
theorem fetch_unreachable_full_noop :
    (∀ (ck : CheckpointFile) (fails : Op → Bool),
        serverPass .unreachable ck fails = ⟨ck, [], [], true⟩)
  ∧ ∀ (ck : CheckpointFile) (fails : Op → Bool),
      serverPass .malformed ck fails = serverPass (.ok []) ck fails :=
  ⟨fun _ _ => rfl, fun _ _ => rfl⟩

/-- Claim C2: the plan a server pass executes (the operation sequence run when
no operation fails) contains an add exactly for the identifiers whose desired
address is not their checkpointed address (new or changed), a remove exactly
for the identifiers whose checkpointed address is no longer their desired
address (changed or deleted), and whenever an identifier has both, they are
the changed-address pair, adjacent in the plan as remove-old then add-new. -/
theorem plan_is_exact_diff (ck de : Doc) (hck : keysNodup ck) (hde : keysNodup de) :
    (applyOps (fun _ => false) ck de).1 = plan ck de
  ∧ (∀ id addr, Op.add id addr ∈ plan ck de ↔
      (lookup de id = some addr ∧ lookup ck id ≠ some addr))
  ∧ (∀ id addr, Op.remove id addr ∈ plan ck de ↔
      (lookup ck id = some addr ∧ lookup de id ≠ some addr))
  ∧ ∀ id a b, Op.remove id a ∈ plan ck de → Op.add id b ∈ plan ck de →
      ∃ l₁ l₂, plan ck de = l₁ ++ (Op.remove id a :: Op.add id b :: l₂) := by
  have hadd : ∀ id addr, Op.add id addr ∈ plan ck de ↔
      (lookup de id = some addr ∧ lookup ck id ≠ some addr) := by
    intro id addr
    rw [mem_plan_iff]
    constructor
    · rintro (⟨e, he, hop⟩ | ⟨e, he, hk, heq⟩)
      · rw [add_mem_entryOps_iff] at hop
        obtain ⟨rfl, rfl, hne⟩ := hop
        exact ⟨lookup_eq_some_of_mem hde he, hne⟩
      · cases heq
    · rintro ⟨h1, h2⟩
      left
      exact ⟨(id, addr), mem_of_lookup_eq_some h1,
        add_mem_entryOps_iff.mpr ⟨rfl, rfl, h2⟩⟩
  have hrem : ∀ id addr, Op.remove id addr ∈ plan ck de ↔
      (lookup ck id = some addr ∧ lookup de id ≠ some addr) := by
    intro id addr
    rw [mem_plan_iff]
    constructor
    · rintro (⟨e, he, hop⟩ | ⟨e, he, hk, heq⟩)
      · rw [remove_mem_entryOps_iff] at hop
        obtain ⟨rfl, h1, h2⟩ := hop
        refine ⟨h1, ?_⟩
        rw [lookup_eq_some_of_mem hde he]
        intro hc
        exact h2 (Option.some.inj hc).symm
      · cases heq
        refine ⟨lookup_eq_some_of_mem hck he, ?_⟩
        intro hc
        unfold hasKey at hk
        rw [hc] at hk
        simp at hk
    · rintro ⟨h1, h2⟩
      cases hd : lookup de id with
      | some b =>
        left
        refine ⟨(id, b), mem_of_lookup_eq_some hd, ?_⟩
        rw [remove_mem_entryOps_iff]
        refine ⟨rfl, h1, ?_⟩
        rintro rfl
        exact h2 hd
      | none =>
        right
        refine ⟨(id, addr), mem_of_lookup_eq_some h1, ?_, rfl⟩
        unfold hasKey
        rw [hd]
        rfl
  refine ⟨congrArg Prod.fst (applyOps_no_failure ck de), hadd, hrem, ?_⟩
  intro id a b hr ha
  obtain ⟨h1, h2⟩ := (hrem id a).mp hr
  obtain ⟨h3, h4⟩ := (hadd id b).mp ha
  have hab : a ≠ b := by
    rintro rfl
    exact h4 h1
  obtain ⟨l₁, l₂, hsplit⟩ :=
    @plan_split_of_mem ck de id b (mem_of_lookup_eq_some h3)
  refine ⟨l₁, l₂, ?_⟩
  rw [hsplit, entryOps_some h1, if_pos hab]
  rfl

/-- Claim C2, witness: on the spec's example documents the changed identifier
produces the adjacent remove-then-add pair. -/
theorem plan_is_exact_diff_witness :
    ∃ l₁ l₂, plan [("a", "1.1.1.1"), ("b", "2.2.2.2")]
        [("a", "1.1.1.1"), ("b", "3.3.3.3"), ("c", "4.4.4.4")]
      = l₁ ++ (Op.remove "b" "2.2.2.2" :: Op.add "b" "3.3.3.3" :: l₂) :=
  (plan_is_exact_diff [("a", "1.1.1.1"), ("b", "2.2.2.2")]
    [("a", "1.1.1.1"), ("b", "3.3.3.3"), ("c", "4.4.4.4")]
    (by decide) (by decide)).2.2.2 "b" "2.2.2.2" "3.3.3.3" (by decide) (by decide)

/-- Claim C3: the checkpoint written by a pass is the full fetched document no
matter which operations fail; every per-identifier failure domain's attempted
calls appear contiguously in the pass's call sequence; what a failure domain
attempts depends only on the failure behaviour of its own identifier's
operations; and a domain that fails is recorded under its identifier. -/
theorem partial_failure_isolated_forward_checkpoint :
    (∀ (ck : CheckpointFile) (newData : Doc) (fails : Op → Bool),
        (serverPass (.ok newData) ck fails).checkpointFile = .present (some newData))
  ∧ (∀ (oldData newData : Doc) (fails : Op → Bool) (d : String) (ops : List Op),
        (d, ops) ∈ passGroups oldData newData →
          ∃ l₁ l₂, (applyOps fails oldData newData).1 = l₁ ++ ((runGroup fails ops).1 ++ l₂))
  ∧ (∀ (oldData newData : Doc) (d : String) (ops : List Op) (fails fails' : Op → Bool),
        (d, ops) ∈ passGroups oldData newData →
          (∀ op, opId op = d → fails op = fails' op) →
            runGroup fails ops = runGroup fails' ops)
  ∧ ∀ (oldData newData : Doc) (d : String) (ops : List Op) (fails : Op → Bool),
      (d, ops) ∈ passGroups oldData newData → (runGroup fails ops).2 = true →
        d ∈ (applyOps fails oldData newData).2 := by
  refine ⟨fun _ _ _ => rfl, ?_, ?_, ?_⟩
  · intro oldData newData fails d ops hmem
    obtain ⟨l₁, l₂, hs⟩ :=
      flatten_split_of_mem (fun g => (runGroup fails g.2).1) hmem
    exact ⟨l₁, l₂, hs⟩
  · intro oldData newData d ops fails fails' hmem hagree
    exact runGroup_congr fun op hop => hagree op (group_ops_id hmem op hop)
  · intro oldData newData d ops fails hmem hflag
    show d ∈ (passGroups oldData newData).filterMap
      fun g => if (runGroup fails g.2).2 then some g.1 else none
    rw [List.mem_filterMap]
    exact ⟨(d, ops), hmem, by simp [hflag]⟩

/-- Claim C3, witness: with checkpoint `a ↦ 1.1.1.1`, fetched document adding
`c ↦ 4.4.4.4`, and the add for `c` failing, the failure is recorded under `c`
and the checkpoint still advances to the full fetched document. -/
theorem partial_failure_isolated_forward_checkpoint_witness :
    "c" ∈ (applyOps (fun op => decide (op = Op.add "c" "4.4.4.4"))
        [("a", "1.1.1.1")] [("a", "1.1.1.1"), ("c", "4.4.4.4")]).2 :=
  partial_failure_isolated_forward_checkpoint.2.2.2 [("a", "1.1.1.1")]
    [("a", "1.1.1.1"), ("c", "4.4.4.4")] "c" [Op.add "c" "4.4.4.4"]
    (fun op => decide (op = Op.add "c" "4.4.4.4")) (by decide) (by decide)

/-- Claim C4, counterexample: with checkpoint `b ↦ 2.2.2.2`, desired
`b ↦ 3.3.3.3`, and the remove of the old address failing, the paired add of
the new address is never attempted (the per-identifier try/catch wraps both
operations), contradicting the claim that the add is still attempted. -/
theorem remove_fail_skips_paired_add_cex :
    Op.add "b" "3.3.3.3" ∉
      (applyOps (fun op => decide (op = Op.remove "b" "2.2.2.2"))
        [("b", "2.2.2.2")] [("b", "3.3.3.3")]).1
  ∧ Op.remove "b" "2.2.2.2" ∈
      (applyOps (fun op => decide (op = Op.remove "b" "2.2.2.2"))
        [("b", "2.2.2.2")] [("b", "3.3.3.3")]).1
  ∧ "b" ∈ (applyOps (fun op => decide (op = Op.remove "b" "2.2.2.2"))
        [("b", "2.2.2.2")] [("b", "3.3.3.3")]).2 := by decide

/-- Claim C4, amended: for an identifier whose address changed, a failing
remove of the old address aborts that identifier's failure domain, so the
paired add of the new address is not attempted in that pass and the failure
is recorded for that identifier; the pair forms one failure domain of the
pass whenever the identifier is in the fetched document. -/
theorem remove_fail_skips_paired_add (oldData : Doc) (d oldIp newIp : String)
    (fails : Op → Bool) (hl : lookup oldData d = some oldIp) (hne : oldIp ≠ newIp)
    (hf : fails (Op.remove d oldIp) = true) :
    runGroup fails (entryOps oldData d newIp) = ([Op.remove d oldIp], true)
  ∧ Op.add d newIp ∉ (runGroup fails (entryOps oldData d newIp)).1
  ∧ ∀ newData : Doc, (d, newIp) ∈ newData →
      (d, entryOps oldData d newIp) ∈ passGroups oldData newData := by
  have hE : entryOps oldData d newIp = [Op.remove d oldIp, Op.add d newIp] := by
    rw [entryOps_some hl, if_pos hne]
  have hrun : runGroup fails (entryOps oldData d newIp)
      = ([Op.remove d oldIp], true) := by
    rw [hE]
    simp [runGroup, hf]
  refine ⟨hrun, ?_, ?_⟩
  · rw [hrun]
    simp
  · intro newData hmem
    unfold passGroups
    rw [List.mem_append]
    left
    rw [List.mem_map]
    exact ⟨(d, newIp), hmem, rfl⟩

/-- Claim C4, amended, witness: concrete changed-address pair whose remove
fails; only the remove is attempted. -/
theorem remove_fail_skips_paired_add_witness :
    runGroup (fun op => decide (op = Op.remove "b" "2.2.2.2"))
        (entryOps [("b", "2.2.2.2")] "b" "3.3.3.3")
      = ([Op.remove "b" "2.2.2.2"], true) :=
  (remove_fail_skips_paired_add [("b", "2.2.2.2")] "b" "2.2.2.2" "3.3.3.3"
    (fun op => decide (op = Op.remove "b" "2.2.2.2"))
    (by decide) (by decide) (by decide)).1

/-- Claim C5: when the checkpoint already equals the fetched document (same
address under every identifier), the pass's plan is empty and no firewall
call is issued regardless of the failure oracle. -/
theorem second_pass_empty_plan (ck de : Doc) (hde : keysNodup de)
    (h : ∀ k, lookup ck k = lookup de k) :
    plan ck de = [] ∧ ∀ fails : Op → Bool, applyOps fails ck de = ([], []) := by
  have hA : ∀ e ∈ de, entryOps ck e.1 e.2 = [] := by
    intro e he
    have hl : lookup ck e.1 = some e.2 := by
      rw [h e.1]
      exact lookup_eq_some_of_mem hde he
    rw [entryOps_some hl, if_neg fun hc => hc rfl]
  have hB : ∀ e ∈ ck,
      (if hasKey de e.1 then (none : Option (String × List Op))
        else some (e.1, [Op.remove e.1 e.2])) = none := by
    intro e he
    have hk : hasKey de e.1 = true := by
      unfold hasKey
      rw [← h e.1]
      exact lookup_isSome_of_mem he
    rw [if_pos hk]
  have hgroups : ∀ g ∈ passGroups ck de, g.2 = [] := by
    intro g hg
    unfold passGroups at hg
    rw [List.mem_append] at hg
    rcases hg with hg | hg
    · rw [List.mem_map] at hg
      obtain ⟨e, he, rfl⟩ := hg
      exact hA e he
    · rw [List.mem_filterMap] at hg
      obtain ⟨e, he, hfe⟩ := hg
      rw [hB e he] at hfe
      cases hfe
  constructor
  · unfold plan
    apply flatten_nil_of_all_nil
    intro l hl
    rw [List.mem_map] at hl
    obtain ⟨g, hg, rfl⟩ := hl
    exact hgroups g hg
  · intro fails
    unfold applyOps
    refine Prod.ext ?_ ?_
    · apply flatten_nil_of_all_nil
      intro l hl
      rw [List.mem_map] at hl
      obtain ⟨g, hg, rfl⟩ := hl
      rw [hgroups g hg]
      rfl
    · apply filterMap_none_of_all
      intro g hg
      rw [hgroups g hg]
      rfl

/-- Claim C5, witness: reconciling the document `a ↦ 1.1.1.1` against itself
produces the empty plan. -/
theorem second_pass_empty_plan_witness :
    plan [("a", "1.1.1.1")] [("a", "1.1.1.1")] = [] :=
  (second_pass_empty_plan [("a", "1.1.1.1")] [("a", "1.1.1.1")] (by decide)
    fun _ => rfl).1

/-- Claim C6: when the observed address equals the last-published address the
connector publish path returns before touching the store: no write is
produced and the pass reports published `false`. -/
theorem connector_noop_on_equal_address (observed lastIP domain : String)
    (stored : Doc) (h : observed = lastIP) :
    updateIP observed lastIP domain stored = (none, false) := by
  unfold updateIP
  rw [if_pos h]

/-- Claim C6, witness: concrete unchanged-address publish pass. -/
theorem connector_noop_on_equal_address_witness :
    updateIP "5.5.5.5" "5.5.5.5" "home-laptop" [("home-laptop", "5.5.5.5")]
      = (none, false) :=
  connector_noop_on_equal_address "5.5.5.5" "5.5.5.5" "home-laptop"
    [("home-laptop", "5.5.5.5")] rfl

/-- Claim C7: a connector publish that does write writes exactly the document
read from the store with its own identifier set to the new address (created
if absent); every other identifier's entry is carried forward unchanged. -/
theorem connector_write_carries_other_keys (observed lastIP domain : String)
    (stored : Doc) (h : observed ≠ lastIP) :
    (updateIP observed lastIP domain stored).1 = some (setKey stored domain observed)
  ∧ (updateIP observed lastIP domain stored).2 = true
  ∧ lookup (setKey stored domain observed) domain = some observed
  ∧ ∀ k, k ≠ domain → lookup (setKey stored domain observed) k = lookup stored k := by
  refine ⟨?_, ?_, lookup_setKey_self stored domain observed,
    fun k hk => lookup_setKey_other stored observed hk⟩
  · unfold updateIP
    rw [if_neg h]
  · unfold updateIP
    rw [if_neg h]

/-- Claim C7, witness: a changed-address publish writes the read document with
only the publisher's key updated. -/
theorem connector_write_carries_other_keys_witness :
    (updateIP "6.6.6.6" "5.5.5.5" "home-laptop" [("office-desktop", "9.9.9.9")]).1
      = some (setKey [("office-desktop", "9.9.9.9")] "home-laptop" "6.6.6.6") :=
  (connector_write_carries_other_keys "6.6.6.6" "5.5.5.5" "home-laptop"
    [("office-desktop", "9.9.9.9")] (by decide)).1

/-- Claim C8: in ip.js the remove operation deletes the allow rule that the
add operation created (true inverse), but in tui.js `removeUFWRule` issues
`ufw delete deny`, which leaves the allow rule added by `addUFWRule` in the
firewall — evaluated here at address 1.2.3.4, port 22. -/
theorem ufw_remove_not_inverse_of_add :
    removeUFWRule (addUFWRule [] "1.2.3.4" 22) "1.2.3.4" 22
        = [(FwAction.allow, "1.2.3.4", 22)]
  ∧ removeRule (addUFWRule [] "1.2.3.4" 22) "1.2.3.4" 22 = [] := by decide

/-- Claim C9: an absent checkpoint file loads as the empty checkpoint, a pass
over it behaves exactly as one whose checkpoint file holds the empty
document, and against an empty checkpoint the plan is one add per fetched
entry (every identifier treated as new). -/
theorem missing_checkpoint_all_adds :
    loadLocalState .absent = []
  ∧ (∀ (newData : Doc) (fails : Op → Bool),
      serverPass (.ok newData) .absent fails
        = serverPass (.ok newData) (.present (some [])) fails)
  ∧ ∀ newData : Doc, plan [] newData = newData.map fun e => Op.add e.1 e.2 :=
  ⟨rfl, fun _ _ => rfl, plan_empty_checkpoint⟩

/-- Claim C10: an unparseable checkpoint file loads as the empty checkpoint
(the parse error is caught), the pass proceeds exactly as with a missing
file, the checkpoint file is then overwritten with the fetched document, and
the plan contains only adds — one per fetched entry, no removes derived from
the stale on-disk state. -/
theorem corrupt_checkpoint_all_adds :
    loadLocalState (.present none) = []
  ∧ (∀ (newData : Doc) (fails : Op → Bool),
      serverPass (.ok newData) (.present none) fails
        = serverPass (.ok newData) .absent fails)
  ∧ (∀ (newData : Doc) (fails : Op → Bool),
      (serverPass (.ok newData) (.present none) fails).checkpointFile
        = .present (some newData))
  ∧ ∀ newData : Doc, plan [] newData = newData.map fun e => Op.add e.1 e.2 :=
  ⟨rfl, fun _ _ => rfl, fun _ _ => rfl, plan_empty_checkpoint⟩

end IpWhitelist
